import Mathlib

/-!
Shallow embedding of the nui widget-composition library: geometry and anchor
math, the Id-addressed message types and the external observer registry, the
animated Button state machine, and the container layout algorithms
(VListContainer, AnchorContainer, ExpandableButton).  The original code uses
`f32`; the embedding uses exact rationals (`ℚ`).  Paths that panic in the
original (`todo!()`, `unreachable!()`, failed assertions, checked-arithmetic
underflow) are modelled as `Option.none`.
-/

namespace Nui

/-- Division on `ℚ`, written so that it evaluates inside the kernel
(Batteries' `Rat.inv`, behind `(· / ·)`, is `@[irreducible]`, which blocks
`decide`).  `rdiv_eq_div` proves it agrees with `(· / ·)`, division by zero
included. -/
def rdiv (a b : ℚ) : ℚ :=
  Rat.divInt (a.num * b.den) (b.num * a.den)

theorem rdiv_eq_div (a b : ℚ) : rdiv a b = a / b := by
  rcases eq_or_ne b 0 with hb | hb
  · subst hb
    simp [rdiv, div_zero, Rat.divInt_eq_div]
  · have h1 : (a.den : ℚ) ≠ 0 := Nat.cast_ne_zero.mpr a.den_nz
    have h2 : (b.den : ℚ) ≠ 0 := Nat.cast_ne_zero.mpr b.den_nz
    have h3 : (b.num : ℚ) ≠ 0 := by
      exact_mod_cast Rat.num_ne_zero.mpr hb
    have ha : (a.num : ℚ) = a * a.den := (div_eq_iff h1).mp (Rat.num_div_den a)
    have hbq : (b.num : ℚ) = b * b.den := (div_eq_iff h2).mp (Rat.num_div_den b)
    rw [rdiv, Rat.divInt_eq_div]
    push_cast
    rw [div_eq_div_iff (mul_ne_zero h3 h1) hb, ha, hbq]
    ring

/-- `Position` from types.rs. -/
structure Position where
  x : ℚ
  y : ℚ
deriving DecidableEq, Repr

/-- `Size` from types.rs. -/
structure Size where
  w : ℚ
  h : ℚ
deriving DecidableEq, Repr

/-- `Bounds` from types.rs. -/
structure Bounds where
  x : ℚ
  y : ℚ
  size : Size
deriving DecidableEq, Repr

/-- `Bounds::contains`: inclusive on all four edges. -/
def Bounds.contains (b : Bounds) (position : Position) : Bool :=
  decide (position.x ≥ b.x) && decide (position.y ≥ b.y)
    && decide (position.x ≤ b.x + b.size.w) && decide (position.y ≤ b.y + b.size.h)

/-- `Scale` from types.rs. -/
structure Scale where
  x : ℚ
  y : ℚ
deriving DecidableEq, Repr

/-- `Space` from types.rs. -/
inductive Space where
  | fill
  | minimize
deriving DecidableEq, Repr

/-- `AnchorX` from types.rs. -/
inductive AnchorX where
  | left
  | middle
  | right
deriving DecidableEq, Repr

/-- `AnchorY` from types.rs. -/
inductive AnchorY where
  | top
  | middle
  | bottom
deriving DecidableEq, Repr

/-- `Anchor` from types.rs. -/
structure Anchor where
  x : AnchorX
  y : AnchorY
deriving DecidableEq, Repr

/-- `Anchor::get_point`: the anchor's reference point inside a rectangle of
the given size. -/
def Anchor.get_point (a : Anchor) (size : Size) : Position :=
  let px : ℚ :=
    match a.x with
    | .left => 0
    | .middle => rdiv size.w 2
    | .right => size.w
  let py : ℚ :=
    match a.y with
    | .top => 0
    | .middle => rdiv size.h 2
    | .bottom => size.h
  ⟨px, py⟩

/-- `Anchor::apply_to`: shift the bounds so that the anchor point of the
result lands on the incoming origin; size unchanged. -/
def Anchor.apply_to (a : Anchor) (bounds : Bounds) : Bounds :=
  let position := a.get_point bounds.size
  { x := bounds.x - position.x, y := bounds.y - position.y, size := bounds.size }

/-- `ActionState` from types.rs (`End` is a Lean keyword, hence `end'`). -/
inductive ActionState where
  | start
  | end'
deriving DecidableEq, Repr

/-- `Id` from types.rs (u32 newtype; the integer value is all that matters
for routing). -/
structure Id where
  val : ℕ
deriving DecidableEq, Repr

/-- `KeyState` from types.rs. -/
inductive KeyState where
  | pressed
  | held
  | released
  | unpressed
deriving DecidableEq, Repr

/-- `AppState` from types.rs: the per-frame input snapshot.  The unused
`input`/`keys` fields (external key-code type) are omitted. -/
structure AppState where
  mouse_position : Position
  right_click : KeyState
  left_click : KeyState
  dt : ℚ
deriving DecidableEq, Repr

/-- `ButtonMessage` from button.rs. -/
inductive ButtonMessage where
  | hover (state : ActionState)
  | click
deriving DecidableEq, Repr

/-- `ExpandableButtonMessage` from expandable_button.rs. -/
inductive ExpandableButtonMessage where
  | expand
  | fold
deriving DecidableEq, Repr

/-- `MessageData` from types.rs. -/
inductive MessageData where
  | button (m : ButtonMessage)
  | expandableButton (m : ExpandableButtonMessage)
  | null
deriving DecidableEq, Repr

/-- `Message` from types.rs. -/
structure Message where
  target : Id
  data : MessageData
deriving DecidableEq, Repr

/-- `PreserveRatio` from types.rs (`None` renamed `none'` to avoid the
`Option.none` clash). -/
inductive PreserveRatio where
  | height (ratio : ℚ)
  | width (ratio : ℚ)
  | none'
deriving DecidableEq, Repr

/-! ### EventObserver (types.rs)

The `HashMap<Id, flume::Sender<MessageData>>` registry is modelled as an
association list from `Id` to an abstract channel token (`ℕ`).  `handle`'s
`for … if id == msg.target { tx.send(..); break }` loop delivers the payload
to the first matching entry only; the delivery is modelled as the list of
(channel, payload) pairs sent. -/

/-- `EventObserver` from types.rs. -/
structure EventObserver where
  targets : List (Id × ℕ)
deriving DecidableEq, Repr

/-- `EventObserver::observe`: `HashMap::insert` keyed by `Id`
(last-write-wins), with `ch` standing for the freshly created channel. -/
def EventObserver.observe (o : EventObserver) (target : Id) (ch : ℕ) : EventObserver :=
  { targets := (target, ch) :: o.targets.filter (fun e => e.1 ≠ target) }

/-- `EventObserver::handle`: forward the payload to the first registered
entry whose key equals the message target, if any. -/
def EventObserver.handle (o : EventObserver) (msg : Message) : List (ℕ × MessageData) :=
  match o.targets.find? (fun e => e.1 = msg.target) with
  | some e => [(e.2, msg.data)]
  | none => []

/-! ### Button (button.rs)

The rendering-only fields (`text`, `image`, `color`) and the cloned queue
sender are omitted; emitted messages are returned explicitly.  `min_size`
calls the external `measure_text`; its result is modelled from the spec as
the `text_size` field ("natural content size" of the text). -/

/-- `f32::max` (kernel-computable; Mathlib's lattice `max` on `ℚ` does not
reduce in the kernel). -/
def rmax (a b : ℚ) : ℚ :=
  if a ≤ b then b else a

/-- `f32::clamp(lo, hi)`. -/
def clamp (x lo hi : ℚ) : ℚ :=
  if x < lo then lo else if hi < x then hi else x

/-- `bounce` from button.rs: back-out easing with overshoot
(`c1 = 1.70158`, `c3 = c1 + 1`), input clamped to `[0,1]`. -/
def bounce (x : ℚ) : ℚ :=
  let x := clamp x 0 1
  let c1 : ℚ := rdiv 170158 100000
  let c3 : ℚ := c1 + 1
  1 + c3 * ((x - 1) * (x - 1) * (x - 1)) + c1 * ((x - 1) * (x - 1))

/-- `lerp` from `Button::update`. -/
def lerp (lo hi percent : ℚ) : ℚ :=
  lo + percent * (hi - lo)

/-- The state of a `Button` (button.rs).  `text_size` — Modelled from the
spec: the external `measure_text(text)` dimensions backing `min_size`. -/
structure ButtonState where
  id : Id
  outer_bounds : Bounds
  inner_bounds : Bounds
  space : Space
  anchor : Anchor
  preserve_ratio : PreserveRatio
  text_size : Size
  hover : Bool
  offset : ℚ
  progress : ℚ
  progress_inc : Bool
  hover_offset : ℚ
deriving DecidableEq, Repr

/-- `Button::handle_message`. -/
def Button.handle_message (s : ButtonState) (msg : ButtonMessage) : ButtonState :=
  let prev_hover := s.hover
  let s :=
    match msg with
    | .hover .start => { s with hover := true }
    | .hover .end' => { s with hover := false }
    | .click => s
  if prev_hover ≠ s.hover then
    if s.hover then
      { s with progress_inc := true }
    else
      { s with progress_inc := false, progress := rdiv s.offset s.hover_offset }
  else
    s

/-- `Element::handle` for `Button`: react only if targeted with a
`Button` payload. -/
def Button.handle (s : ButtonState) (msg : Message) : ButtonState :=
  if msg.target = s.id then
    match msg.data with
    | .button btn_msg => Button.handle_message s btn_msg
    | _ => s
  else
    s

/-- `Element::update` for `Button`: advance the hover animation, recompute
the inner bounds from the animated offset, then run hit/click detection.
Returns the new state and the emitted self-addressed messages in emission
order. -/
def Button.update (s : ButtonState) (state : AppState) : ButtonState × List Message :=
  let s :=
    if (s.progress_inc = true ∧ s.progress ≤ 1) ∨ (s.progress_inc = false ∧ s.progress ≥ 0) then
      let p := s.progress + rdiv 8 5 * (if s.progress_inc then state.dt else 2 * (-state.dt))
      let p := clamp p 0 1
      let target_offset :=
        lerp 0 s.hover_offset (if s.progress_inc then bounce p else p * p)
      { s with progress := p, offset := s.offset + rdiv (target_offset - s.offset) 2 }
    else s
  let offset := s.hover_offset - s.offset
  let s :=
    { s with
      inner_bounds :=
        { s.inner_bounds with
          x := s.outer_bounds.x + offset
          size := { s.inner_bounds.size with w := s.outer_bounds.size.w + offset } } }
  let msgs : List Message :=
    if s.inner_bounds.contains state.mouse_position then
      if state.left_click = .pressed then
        [⟨s.id, .button .click⟩]
      else if s.hover = false then
        [⟨s.id, .button (.hover .start)⟩]
      else []
    else if s.hover = true then
      [⟨s.id, .button (.hover .end')⟩]
    else []
  (s, msgs)

/-- One frame of the driving loop restricted to a single `Button`:
`update` emits messages, the queue is drained and every message is delivered
back through `handle` (they are all self-addressed). -/
def Button.frame (state : AppState) (s : ButtonState) : ButtonState :=
  ((Button.update s state).2).foldl Button.handle (Button.update s state).1

/-- `Element::set_bounds` for `Button` (sets the outer bounds, derives
`hover_offset = width / 5` and the inner bounds, then applies the
aspect-ratio constraint).  `PreserveRatio::Width` is `todo!()` (panic →
`none`); the `assert_f32_near!(w / h, ratio)` check is modelled as failing
when the exact quotient differs from `ratio` (in `f32` a zero height makes
the quotient NaN and the assertion panic). -/
def Button.set_bounds (s : ButtonState) (bounds : Bounds) : Option ButtonState :=
  let bounds := s.anchor.apply_to bounds
  let hover_offset := rdiv bounds.size.w 5
  let inner : Bounds :=
    { x := bounds.x + hover_offset
      y := bounds.y
      size := { w := bounds.size.w - hover_offset, h := bounds.size.h } }
  match s.preserve_ratio with
  | .height ratio =>
    let calculated_width := inner.size.h * ratio
    let max_width := inner.size.w
    let h' := if calculated_width > max_width then rdiv max_width ratio else inner.size.h
    let new_width := h' * ratio
    let inner' : Bounds := { inner with size := { w := new_width, h := h' } }
    if rdiv inner'.size.w inner'.size.h = ratio then
      some { s with outer_bounds := bounds, hover_offset := hover_offset, inner_bounds := inner' }
    else none
  | .width _ => none
  | .none' =>
    some { s with outer_bounds := bounds, hover_offset := hover_offset, inner_bounds := inner }

/-- `Button::min_size` (external text measurement, see `text_size`). -/
def Button.min_size (s : ButtonState) : Size :=
  s.text_size

/-! ### The widget tree

A closed tagged-variant tree covering the four `Element` implementations of
the repository.  `AnchorEntry` keeps its `(scale, anchor, child)` shape. -/

/-- The heterogeneous widget tree: `Button`, `VListContainer`,
`AnchorContainer` and `ExpandableButton`. -/
inductive Widget where
  | button (s : ButtonState)
  | vlist (id : Id) (bounds : Bounds) (children : List Widget) (space : Space) (spacing : ℚ)
  | anchor (id : Id) (bounds : Bounds) (entries : List (Scale × Anchor × Widget))
  | expandable (id : Id) (main : ButtonState) (list : Widget) (bounds : Bounds)
      (expanded : ℚ) (expand_inc : Bool)

/-- `Element::bounds`: a `Button` reports its inner bounds. -/
def Widget.bounds : Widget → Bounds
  | .button s => s.inner_bounds
  | .vlist _ b _ _ _ => b
  | .anchor _ b _ => b
  | .expandable _ _ _ b _ _ => b

/-- `Element::space`: `AnchorContainer::space` is `todo!()` (panic →
`none`); `ExpandableButton::space` is always `Minimize`. -/
def Widget.space : Widget → Option Space
  | .button s => some s.space
  | .vlist _ _ _ sp _ => some sp
  | .anchor _ _ _ => none
  | .expandable _ _ _ _ _ _ => some .minimize

mutual

/-- `Element::min_size`: `AnchorContainer::min_size` is `todo!()` (panic →
`none`); `VListContainer::min_size` folds the children (no spacing);
`ExpandableButton::min_size` adds the list only while `expanded != 0`. -/
def Widget.min_size : Widget → Option Size
  | .button s => some (Button.min_size s)
  | .vlist _ _ children _ _ => minSizeFold ⟨0, 0⟩ children
  | .anchor _ _ _ => none
  | .expandable _ main list _ expanded _ =>
    let main_min_size := Button.min_size main
    if expanded ≠ 0 then
      match list.min_size with
      | some list_min_size =>
        some ⟨main_min_size.w + list_min_size.w, main_min_size.h + list_min_size.h⟩
      | none => none
    else some main_min_size

/-- The `iter().map(min_size).fold` in `VListContainer::min_size`
(max of widths, sum of heights). -/
def minSizeFold (acc : Size) : List Widget → Option Size
  | [] => some acc
  | child :: rest =>
    match child.min_size with
    | some m => minSizeFold ⟨rmax acc.w m.w, acc.h + m.h⟩ rest
    | none => none

end

/-- The measure pass of `VListContainer::set_bounds`: accumulates the
folded min size, the total min height of `Minimize` children
(`child_min_size`) and the number of `Fill` children (`fill_count`). -/
def vlistMeasure : List Widget → Size → ℚ → ℕ → Option (Size × ℚ × ℕ)
  | [], min_size, child_min_size, fill_count => some (min_size, child_min_size, fill_count)
  | child :: rest, min_size, child_min_size, fill_count =>
    match child.min_size, child.space with
    | some m, some sp =>
      let min_size' : Size := ⟨rmax min_size.w m.w, min_size.h + m.h⟩
      match sp with
      | .fill => vlistMeasure rest min_size' child_min_size (fill_count + 1)
      | .minimize => vlistMeasure rest min_size' (child_min_size + m.h) fill_count
    | _, _ => none

/-- The per-child size of the distribute loop: a `Fill` child receives
`(width, free_height / fill_count)`, a `Minimize` child its min size. -/
def vlistChildSize (size_without_padding : Size) (free_height : ℚ) (fill_count : ℕ)
    (m : Size) : Space → Size
  | .fill => ⟨size_without_padding.w, rdiv free_height (fill_count : ℚ)⟩
  | .minimize => m

mutual

/-- `Element::set_bounds` for each widget kind.  `none` models a panic:
`todo!()` on `PreserveRatio::Width`, a failed ratio assertion, or — for
`VListContainer` with zero children — the checked `usize` underflow in
`spacing * (children.len() - 1)`. -/
def Widget.set_bounds : Widget → Bounds → Option Widget
  | .button s, bounds =>
    match Button.set_bounds s bounds with
    | some s' => some (.button s')
    | none => none
  | .vlist id _ children sp spacing, bounds =>
    match vlistMeasure children ⟨0, 0⟩ 0 0 with
    | some (min_size, child_min_size, fill_count) =>
      match children with
      | [] => none
      | _ :: _ =>
        let total_padding := spacing * ((children.length - 1 : ℕ) : ℚ)
        let min_size : Size := ⟨min_size.w, min_size.h + total_padding⟩
        let size : Size :=
          match sp with
          | .fill => bounds.size
          | .minimize => min_size
        let size_without_padding : Size := ⟨size.w, size.h - total_padding⟩
        let free_height := size_without_padding.h - child_min_size
        match vlistLoop bounds spacing size_without_padding free_height fill_count 0 children with
        | some children' =>
          some (.vlist id ⟨bounds.x, bounds.y, size⟩ children' sp spacing)
        | none => none
    | none => none
  | .anchor id _ entries, bounds =>
    match anchorLoop bounds entries with
    | some entries' => some (.anchor id bounds entries')
    | none => none
  | .expandable id main list _ expanded expand_inc, bounds =>
    match Button.set_bounds main bounds with
    | some main' => some (.expandable id main' list bounds expanded expand_inc)
    | none => none

/-- The distribute loop of `VListContainer::set_bounds`: each `Fill` child
receives `(width, free_height / fill_count)`, each `Minimize` child its min
size; `y` advances by the child's resulting (`bounds()`) height plus
spacing. -/
def vlistLoop (bounds : Bounds) (spacing : ℚ) (size_without_padding : Size)
    (free_height : ℚ) (fill_count : ℕ) (y : ℚ) :
    List Widget → Option (List Widget)
  | [] => some []
  | child :: rest =>
    match child.min_size, child.space with
    | some m, some sp =>
      let child_size : Size := vlistChildSize size_without_padding free_height fill_count m sp
      match child.set_bounds ⟨bounds.x, bounds.y + y, child_size⟩ with
      | some child' =>
        match vlistLoop bounds spacing size_without_padding free_height fill_count
            (y + child'.bounds.size.h + spacing) rest with
        | some rest' => some (child' :: rest')
        | none => none
      | none => none
    | _, _ => none

/-- The entry loop of `AnchorContainer::set_bounds`: each entry gets
`size = parent.size * scale` placed at `anchor.get_point(parent.size)`
(the parent origin is ignored, as in the source). -/
def anchorLoop (bounds : Bounds) :
    List (Scale × Anchor × Widget) → Option (List (Scale × Anchor × Widget))
  | [] => some []
  | (scale, anch, child) :: rest =>
    let size : Size := ⟨bounds.size.w * scale.x, bounds.size.h * scale.y⟩
    let position := anch.get_point bounds.size
    match child.set_bounds ⟨position.x, position.y, size⟩ with
    | some child' =>
      match anchorLoop bounds rest with
      | some rest' => some ((scale, anch, child') :: rest')
      | none => none
    | none => none

end

mutual

/-- `Element::handle` over the tree.  Containers forward to every child;
`ExpandableButton::handle` first emits the `Expand`/`Fold` toggle when it
observes its main button's `Click`, then forwards to `main` and (while
`expanded != 0`) to the list, and finally reacts to a message addressed to
its own id — hitting `unreachable!()` (→ `none`) when such a message does
not carry an `ExpandableButton` payload.  The result pairs the new tree
with the messages emitted during handling. -/
def Widget.handle : Widget → Message → Option (Widget × List Message)
  | .button s, msg => some (.button (Button.handle s msg), [])
  | .vlist id bounds children sp spacing, msg =>
    match handleList children msg with
    | some (children', out) => some (.vlist id bounds children' sp spacing, out)
    | none => none
  | .anchor id bounds entries, msg =>
    match handleEntries entries msg with
    | some (entries', out) => some (.anchor id bounds entries', out)
    | none => none
  | .expandable id main list bounds expanded expand_inc, msg =>
    let out1 : List Message :=
      if msg.target = main.id then
        match msg.data with
        | .button .click =>
          [⟨id, .expandableButton (if expand_inc then .fold else .expand)⟩]
        | _ => []
      else []
    let main' := Button.handle main msg
    match (if expanded ≠ 0 then Widget.handle list msg else some (list, [])) with
    | none => none
    | some (list', out2) =>
      if msg.target = id then
        match msg.data with
        | .expandableButton em =>
          let expand_inc' :=
            match em with
            | .expand => true
            | .fold => false
          some (.expandable id main' list' bounds expanded expand_inc', out1 ++ out2)
        | _ => none
      else
        some (.expandable id main' list' bounds expanded expand_inc, out1 ++ out2)

/-- `handle` folded over a `VListContainer`'s children. -/
def handleList : List Widget → Message → Option (List Widget × List Message)
  | [], _ => some ([], [])
  | child :: rest, msg =>
    match child.handle msg with
    | some (child', out1) =>
      match handleList rest msg with
      | some (rest', out2) => some (child' :: rest', out1 ++ out2)
      | none => none
    | none => none

/-- `handle` folded over an `AnchorContainer`'s entries. -/
def handleEntries :
    List (Scale × Anchor × Widget) → Message → Option (List (Scale × Anchor × Widget) × List Message)
  | [], _ => some ([], [])
  | (scale, anch, child) :: rest, msg =>
    match child.handle msg with
    | some (child', out1) =>
      match handleEntries rest msg with
      | some (rest', out2) => some ((scale, anch, child') :: rest', out1 ++ out2)
      | none => none
    | none => none

end

mutual

/-- Whether any node of the tree reacts to messages targeted at `i`: the id
of any `Button`, the id of any `ExpandableButton` or of its main button.
(Container ids are never consulted by `handle`.) -/
def listensTo (i : Id) : Widget → Bool
  | .button s => decide (i = s.id)
  | .vlist _ _ children _ _ => listensToList i children
  | .anchor _ _ entries => listensToEntries i entries
  | .expandable id main list _ _ _ =>
    decide (i = id) || decide (i = main.id) || listensTo i list

/-- `listensTo` over a list of children. -/
def listensToList (i : Id) : List Widget → Bool
  | [] => false
  | child :: rest => listensTo i child || listensToList i rest

/-- `listensTo` over anchor entries. -/
def listensToEntries (i : Id) : List (Scale × Anchor × Widget) → Bool
  | [] => false
  | (_, _, child) :: rest => listensTo i child || listensToEntries i rest

end

/-! ## Claims -/

/-- **C7**: for every anchor and bounds `b`, `apply_to b` keeps the size and
shifts the origin so that the anchor's reference point of the result lands
exactly on `b`'s origin; in particular a Right/Top anchor on origin
`(100,100)`, size `(20,10)` yields origin `(80,100)` with `y` unchanged. -/
theorem C7_anchor_apply_to :
    (∀ (a : Anchor) (b : Bounds),
      (a.apply_to b).size = b.size ∧
      (a.apply_to b).x + (a.get_point (a.apply_to b).size).x = b.x ∧
      (a.apply_to b).y + (a.get_point (a.apply_to b).size).y = b.y) ∧
    Anchor.apply_to ⟨.right, .top⟩ ⟨100, 100, ⟨20, 10⟩⟩ = ⟨80, 100, ⟨20, 10⟩⟩ := by
  constructor
  · intro a b
    obtain ⟨ax, ay⟩ := a
    refine ⟨rfl, ?_, ?_⟩ <;>
      cases ax <;> cases ay <;>
        simp [Anchor.apply_to, Anchor.get_point]
  · with_unfolding_all decide

/-- **C8**: with the registry well-formed (unique ids from `HashMap`
semantics, channels pairwise distinct as each `observe` call creates a fresh
one), an observer registered for id `X` receives a dispatched message's
payload iff the message's target is `X`, and every message is forwarded to
at most one subscriber. -/
theorem C8_event_observer_routing (o : EventObserver) (X : Id) (cX : ℕ) (msg : Message)
    (hkeys : (o.targets.map Prod.fst).Nodup)
    (hchs : (o.targets.map Prod.snd).Nodup)
    (hreg : (X, cX) ∈ o.targets) :
    ((cX, msg.data) ∈ o.handle msg ↔ msg.target = X) ∧ (o.handle msg).length ≤ 1 := by
  rcases hfind : o.targets.find? (fun e => e.1 = msg.target) with _ | e
  · rw [EventObserver.handle, hfind]
    refine ⟨⟨fun h => absurd h (List.not_mem_nil _), fun htgt => ?_⟩, by simp⟩
    have := List.find?_eq_none.mp hfind (X, cX) hreg
    simp [htgt] at this
  · rw [EventObserver.handle, hfind]
    have hmem : e ∈ o.targets := List.mem_of_find?_eq_some hfind
    have hpred : e.1 = msg.target := by
      have := List.find?_some hfind
      simpa using this
    constructor
    · constructor
      · intro h
        have he2 : e.2 = cX := by
          have h' := List.mem_singleton.mp h
          exact (congrArg Prod.fst h').symm
        have : e = (X, cX) :=
          List.inj_on_of_nodup_map hchs hmem hreg (by simpa using he2)
        rw [← hpred, this]
      · intro htgt
        have : e = (X, cX) :=
          List.inj_on_of_nodup_map hkeys hmem hreg (by simp [hpred, htgt])
        simp [this]
    · simp

/-- **C8 witness**: the routing theorem applied to a two-entry registry. -/
theorem C8_event_observer_routing_witness :
    (([(Id.mk 1, 0), (Id.mk 2, 1)].map Prod.fst).Nodup ∧
      ([(Id.mk 1, 0), (Id.mk 2, 1)].map Prod.snd).Nodup ∧
      (Id.mk 1, 0) ∈ [(Id.mk 1, 0), (Id.mk 2, 1)]) ∧
    (((0, MessageData.null) ∈
        EventObserver.handle ⟨[(Id.mk 1, 0), (Id.mk 2, 1)]⟩ ⟨Id.mk 1, .null⟩ ↔
        (Message.mk (Id.mk 1) .null).target = Id.mk 1) ∧
      (EventObserver.handle ⟨[(Id.mk 1, 0), (Id.mk 2, 1)]⟩ ⟨Id.mk 1, .null⟩).length ≤ 1) :=
  ⟨⟨by decide, by decide, by decide⟩,
    C8_event_observer_routing ⟨[(Id.mk 1, 0), (Id.mk 2, 1)]⟩ (Id.mk 1) 0 ⟨Id.mk 1, .null⟩
      (by decide) (by decide) (by decide)⟩

/-- Whether a payload is an `ExpandableButton` variant. -/
def MessageData.isExpandable : MessageData → Bool
  | .expandableButton _ => true
  | _ => false

/-- **C9**: the unimplemented paths — `AnchorContainer::min_size`,
`AnchorContainer::space`, and `Button::set_bounds` under a
`PreserveRatio::Width` constraint — fail with an explicit not-implemented
panic (modelled `none`) on every input, never returning a degraded result. -/
theorem C9_unimplemented_paths_panic :
    (∀ (id : Id) (b : Bounds) (entries : List (Scale × Anchor × Widget)),
      Widget.min_size (.anchor id b entries) = none) ∧
    (∀ (id : Id) (b : Bounds) (entries : List (Scale × Anchor × Widget)),
      Widget.space (.anchor id b entries) = none) ∧
    (∀ (s : ButtonState) (b : Bounds) (ratio : ℚ),
      s.preserve_ratio = .width ratio → Button.set_bounds s b = none) := by
  refine ⟨fun id b entries => ?_, fun id b entries => ?_, fun s b ratio h => ?_⟩
  · rw [Widget.min_size]
  · rw [Widget.space]
  · simp [Button.set_bounds, h]

/-- **C9 witness**: the `PreserveRatio::Width` branch of the theorem at a
concrete button. -/
theorem C9_unimplemented_paths_panic_witness :
    (ButtonState.mk ⟨9⟩ ⟨0, 0, ⟨0, 0⟩⟩ ⟨0, 0, ⟨0, 0⟩⟩ .fill ⟨.left, .top⟩ (.width 2)
        ⟨0, 0⟩ false 0 0 false 0).preserve_ratio = .width 2 ∧
    Button.set_bounds
      (ButtonState.mk ⟨9⟩ ⟨0, 0, ⟨0, 0⟩⟩ ⟨0, 0, ⟨0, 0⟩⟩ .fill ⟨.left, .top⟩ (.width 2)
        ⟨0, 0⟩ false 0 0 false 0) ⟨0, 0, ⟨10, 10⟩⟩ = none :=
  ⟨rfl, C9_unimplemented_paths_panic.2.2 _ ⟨0, 0, ⟨10, 10⟩⟩ 2 rfl⟩

/-- **C10**: `ExpandableButton::handle` hits `unreachable!()` (panic,
modelled `none`) whenever a message targeted at its own id does not carry an
`ExpandableButton` payload. -/
theorem C10_expandable_unreachable_on_foreign_payload
    (id : Id) (main : ButtonState) (list : Widget) (bnds : Bounds)
    (expanded : ℚ) (expand_inc : Bool) (d : MessageData)
    (hd : d.isExpandable = false) :
    Widget.handle (.expandable id main list bnds expanded expand_inc) ⟨id, d⟩ = none := by
  rw [Widget.handle]
  rcases hl : (if expanded ≠ 0 then Widget.handle list ⟨id, d⟩ else some (list, [])) with
    _ | ⟨list', out2⟩
  · simp [hl]
  · cases d with
    | button m => simp [hl]
    | expandableButton em => simp [MessageData.isExpandable] at hd
    | null => simp [hl]

/-- **C10 witness**: a `Null` payload addressed to the ExpandableButton's
own id crashes (returns `none`). -/
theorem C10_expandable_unreachable_on_foreign_payload_witness :
    MessageData.isExpandable .null = false ∧
    Widget.handle
      (.expandable ⟨5⟩
        (ButtonState.mk ⟨6⟩ ⟨0, 0, ⟨0, 0⟩⟩ ⟨0, 0, ⟨0, 0⟩⟩ .fill ⟨.left, .top⟩ .none'
          ⟨0, 0⟩ false 0 0 false 0)
        (.vlist ⟨7⟩ ⟨0, 0, ⟨0, 0⟩⟩ [] .fill 5) ⟨0, 0, ⟨0, 0⟩⟩ 0 false)
      ⟨⟨5⟩, .null⟩ = none :=
  ⟨rfl, C10_expandable_unreachable_on_foreign_payload ⟨5⟩ _ _ _ 0 false .null rfl⟩

/-! ### Auxiliary facts about `Button::update` -/

/-- `update` never changes the hover flag. -/
theorem Button.update_hover (s : ButtonState) (st : AppState) :
    (Button.update s st).1.hover = s.hover := by
  rw [Button.update]
  by_cases hc :
      (s.progress_inc = true ∧ s.progress ≤ 1) ∨ (s.progress_inc = false ∧ s.progress ≥ 0) <;>
    simp [hc]

/-- `update` never changes the id. -/
theorem Button.update_id (s : ButtonState) (st : AppState) :
    (Button.update s st).1.id = s.id := by
  rw [Button.update]
  by_cases hc :
      (s.progress_inc = true ∧ s.progress ≤ 1) ∨ (s.progress_inc = false ∧ s.progress ≥ 0) <;>
    simp [hc]

/-- `update` never changes the animation direction flag. -/
theorem Button.update_progress_inc (s : ButtonState) (st : AppState) :
    (Button.update s st).1.progress_inc = s.progress_inc := by
  rw [Button.update]
  by_cases hc :
      (s.progress_inc = true ∧ s.progress ≤ 1) ∨ (s.progress_inc = false ∧ s.progress ≥ 0) <;>
    simp [hc]

/-- `update` never changes `hover_offset`. -/
theorem Button.update_hover_offset (s : ButtonState) (st : AppState) :
    (Button.update s st).1.hover_offset = s.hover_offset := by
  rw [Button.update]
  by_cases hc :
      (s.progress_inc = true ∧ s.progress ≤ 1) ∨ (s.progress_inc = false ∧ s.progress ≥ 0) <;>
    simp [hc]

/-- The animation step of `update`: `progress` is bumped and clamped only
while the direction's stop bound has not been passed. -/
theorem Button.update_progress (s : ButtonState) (st : AppState) :
    (Button.update s st).1.progress =
      if (s.progress_inc = true ∧ s.progress ≤ 1) ∨ (s.progress_inc = false ∧ s.progress ≥ 0)
      then clamp (s.progress + rdiv 8 5 * (if s.progress_inc then st.dt else 2 * (-st.dt))) 0 1
      else s.progress := by
  rw [Button.update]
  by_cases hc :
      (s.progress_inc = true ∧ s.progress ≤ 1) ∨ (s.progress_inc = false ∧ s.progress ≥ 0) <;>
    simp [hc]

/-- The hit/click-detection step of `update`: which self-addressed messages
are emitted, as a function of the post-update inner bounds, the click edge
state and the pre-update hover flag. -/
theorem Button.update_msgs (s : ButtonState) (st : AppState) :
    (Button.update s st).2 =
      if (Button.update s st).1.inner_bounds.contains st.mouse_position then
        if st.left_click = .pressed then [⟨s.id, .button .click⟩]
        else if s.hover = false then [⟨s.id, .button (.hover .start)⟩]
        else []
      else if s.hover = true then [⟨s.id, .button (.hover .end')⟩] else [] := by
  conv_lhs => rw [Button.update]
  conv_rhs => rw [Button.update]
  by_cases hc :
      (s.progress_inc = true ∧ s.progress ≤ 1) ∨ (s.progress_inc = false ∧ s.progress ≥ 0) <;>
    simp [hc]

/-- A button that is not hovered, with the mouse about to be found inside
its inner bounds. -/
def c6Btn : ButtonState :=
  { id := ⟨0⟩
    outer_bounds := ⟨0, 0, ⟨10, 10⟩⟩
    inner_bounds := ⟨0, 0, ⟨10, 10⟩⟩
    space := .fill
    anchor := ⟨.left, .top⟩
    preserve_ratio := .none'
    text_size := ⟨0, 0⟩
    hover := false
    offset := 0
    progress := 0
    progress_inc := false
    hover_offset := 0 }

/-- Input snapshot: mouse inside `c6Btn`, left click freshly `Pressed`. -/
def c6St : AppState := ⟨⟨2, 2⟩, .unpressed, .pressed, rdiv 1 16⟩

/-- **C6 counterexample**: the mouse enters the inner bounds while the
button is not hovered, but because the left click is freshly `Pressed` the
`else if` chain emits only `Click` — no `Hover(Start)` message is emitted,
contradicting the claim's unconditional entering-emits-`Hover(Start)`. -/
theorem C6_counterexample :
    ((Button.update c6Btn c6St).1.inner_bounds.contains c6St.mouse_position) = true ∧
    c6Btn.hover = false ∧
    c6St.left_click = .pressed ∧
    (Button.update c6Btn c6St).2 = [⟨⟨0⟩, .button .click⟩] ∧
    (Message.mk ⟨0⟩ (.button (.hover .start))) ∉ (Button.update c6Btn c6St).2 := by
  with_unfolding_all decide

/-- **C6 amended**: `Button::update`'s emissions are priority-ordered —
inside the (post-update) inner bounds a freshly-`Pressed` left click emits
exactly `Click` (suppressing `Hover(Start)` even when not yet hovered);
inside without a fresh press and not yet hovered emits exactly
`Hover(Start)`; outside while hovered emits exactly `Hover(End)`; and a
`Click` message is never consumed by the button's own handler (the whole
state is left unchanged). -/
theorem C6_amended_button_emissions (s : ButtonState) (st : AppState) :
    ((Button.update s st).1.inner_bounds.contains st.mouse_position = true →
      st.left_click = .pressed →
      (Button.update s st).2 = [⟨s.id, .button .click⟩]) ∧
    ((Button.update s st).1.inner_bounds.contains st.mouse_position = true →
      st.left_click ≠ .pressed → s.hover = false →
      (Button.update s st).2 = [⟨s.id, .button (.hover .start)⟩]) ∧
    ((Button.update s st).1.inner_bounds.contains st.mouse_position = false →
      s.hover = true →
      (Button.update s st).2 = [⟨s.id, .button (.hover .end')⟩]) ∧
    (∀ s' : ButtonState, Button.handle_message s' .click = s') := by
  refine ⟨fun hin hp => ?_, fun hin hp hh => ?_, fun hout hh => ?_, fun s' => ?_⟩
  · rw [Button.update_msgs, hin, if_pos rfl, if_pos hp]
  · rw [Button.update_msgs, hin, if_pos rfl, if_neg hp, if_pos hh]
  · rw [Button.update_msgs, hout]
    simp [hh]
  · rw [Button.handle_message]
    simp

/-- **C6 witness**: the fresh-press branch of the amended theorem at
`c6Btn`/`c6St`. -/
theorem C6_amended_button_emissions_witness :
    ((Button.update c6Btn c6St).1.inner_bounds.contains c6St.mouse_position = true ∧
      c6St.left_click = .pressed) ∧
    (Button.update c6Btn c6St).2 = [⟨c6Btn.id, .button .click⟩] :=
  ⟨⟨by with_unfolding_all decide, rfl⟩,
    (C6_amended_button_emissions c6Btn c6St).1 (by with_unfolding_all decide) rfl⟩

/-! ### Auxiliary facts about `clamp` and `Button::handle_message` -/

theorem clamp_nonneg (x hi : ℚ) (h : 0 ≤ hi) : 0 ≤ clamp x 0 hi := by
  rw [clamp]
  split_ifs with h1 h2 <;> linarith

theorem clamp_le_hi (x hi : ℚ) (h : 0 ≤ hi) : clamp x 0 hi ≤ hi := by
  rw [clamp]
  split_ifs with h1 h2 <;> linarith

theorem le_clamp_of_le (x p hi : ℚ) (h0 : 0 ≤ p) (hp : p ≤ hi) (hx : p ≤ x) :
    p ≤ clamp x 0 hi := by
  rw [clamp]
  split_ifs with h1 h2 <;> linarith

theorem clamp_le_of_le (x p hi : ℚ) (h0 : 0 ≤ p) (hx : x ≤ p) :
    clamp x 0 hi ≤ p := by
  rw [clamp]
  split_ifs with h1 h2 <;> linarith

/-- A `Click` message leaves a button's state untouched. -/
theorem Button.handle_message_click (s : ButtonState) :
    Button.handle_message s .click = s := by
  rw [Button.handle_message]
  simp

/-- A `Click`-carrying message leaves a button's state untouched whatever
its target. -/
theorem Button.handle_click_any (s : ButtonState) (t : Id) :
    Button.handle s ⟨t, .button .click⟩ = s := by
  rw [Button.handle]
  split_ifs with h <;> simp [Button.handle_message_click]

/-- `Hover(End)` on a hovered button: hover cleared, direction reversed,
`progress` reset to the current visual fraction `offset / hover_offset`. -/
theorem Button.handle_message_hover_end (s : ButtonState) (h : s.hover = true) :
    Button.handle_message s (.hover .end') =
      { s with hover := false, progress_inc := false,
               progress := rdiv s.offset s.hover_offset } := by
  rw [Button.handle_message]
  simp [h]

/-- **C1 amended**: over full frames (update, then queue drained and every
emitted message handled) with positive `dt`: while the mouse stays inside
the (post-update) inner bounds of a hovered button, `progress` is
non-decreasing and stays in `[0,1]`; while it stays outside on an unhovered
button, `progress` is non-increasing and lands back in `[0,1]`; but on the
frame where the pointer leaves, the hover-end reset sets `progress` to the
raw quotient `offset / hover_offset`, which is *not* clamped to `[0,1]`
(and can exceed 1, see the counterexample). -/
theorem C1_amended_progress_animation (s : ButtonState) (st : AppState) (hdt : 0 < st.dt) :
    (s.hover = true → s.progress_inc = true → 0 ≤ s.progress → s.progress ≤ 1 →
      (Button.update s st).1.inner_bounds.contains st.mouse_position = true →
      s.progress ≤ (Button.frame st s).progress ∧
      0 ≤ (Button.frame st s).progress ∧ (Button.frame st s).progress ≤ 1 ∧
      (Button.frame st s).hover = true ∧ (Button.frame st s).progress_inc = true) ∧
    (s.hover = false → s.progress_inc = false → 0 ≤ s.progress →
      (Button.update s st).1.inner_bounds.contains st.mouse_position = false →
      (Button.frame st s).progress ≤ s.progress ∧
      0 ≤ (Button.frame st s).progress ∧ (Button.frame st s).progress ≤ 1 ∧
      (Button.frame st s).hover = false ∧ (Button.frame st s).progress_inc = false) ∧
    (s.hover = true →
      (Button.update s st).1.inner_bounds.contains st.mouse_position = false →
      (Button.frame st s).progress =
        rdiv (Button.update s st).1.offset s.hover_offset ∧
      (Button.frame st s).hover = false ∧ (Button.frame st s).progress_inc = false) := by
  have hstep : (0 : ℚ) < rdiv 8 5 * st.dt := by
    have h85 : (0 : ℚ) < rdiv 8 5 := by
      rw [rdiv_eq_div]
      norm_num
    exact mul_pos h85 hdt
  refine ⟨fun hh hinc h0 h1 hin => ?_, fun hh hinc h0 hout => ?_, fun hh hout => ?_⟩
  · have hmsgs := Button.update_msgs s st
    rw [hin] at hmsgs
    simp only [if_true, hh] at hmsgs
    have hup := Button.update_progress s st
    rw [if_pos (Or.inl ⟨hinc, h1⟩)] at hup
    simp only [hinc, if_true] at hup
    have hframe : Button.frame st s = (Button.update s st).1 := by
      rw [Button.frame, hmsgs]
      by_cases hlp : st.left_click = .pressed
      · simp [hlp, Button.handle_click_any]
      · simp [hlp]
    rw [hframe, hup]
    refine ⟨le_clamp_of_le _ _ _ h0 h1 (by linarith), clamp_nonneg _ _ zero_le_one,
      clamp_le_hi _ _ zero_le_one, ?_, ?_⟩
    · rw [Button.update_hover, hh]
    · rw [Button.update_progress_inc, hinc]
  · have hmsgs := Button.update_msgs s st
    rw [hout] at hmsgs
    simp only [Bool.false_eq_true, if_false, hh] at hmsgs
    have hup := Button.update_progress s st
    rw [if_pos (Or.inr ⟨hinc, h0⟩)] at hup
    simp only [hinc, Bool.false_eq_true, if_false] at hup
    have hframe : Button.frame st s = (Button.update s st).1 := by
      rw [Button.frame, hmsgs]
      rfl
    rw [hframe, hup]
    have hneg : s.progress + rdiv 8 5 * (2 * -st.dt) ≤ s.progress := by nlinarith
    refine ⟨clamp_le_of_le _ _ _ h0 hneg, clamp_nonneg _ _ zero_le_one,
      clamp_le_hi _ _ zero_le_one, ?_, ?_⟩
    · rw [Button.update_hover, hh]
    · rw [Button.update_progress_inc, hinc]
  · have hmsgs := Button.update_msgs s st
    rw [hout] at hmsgs
    simp only [Bool.false_eq_true, if_false, hh, if_true] at hmsgs
    have huh : (Button.update s st).1.hover = true := by
      rw [Button.update_hover, hh]
    have hframe : Button.frame st s =
        Button.handle (Button.update s st).1 ⟨s.id, .button (.hover .end')⟩ := by
      rw [Button.frame, hmsgs]
      rfl
    rw [hframe, Button.handle]
    rw [if_pos (by rw [Button.update_id])]
    simp only
    rw [Button.handle_message_hover_end _ huh]
    refine ⟨?_, rfl, rfl⟩
    simp [Button.update_hover_offset]

/-- A freshly laid-out button (`hover_offset = 1`) the mouse is about to
enter. -/
def c1Btn : ButtonState :=
  { id := ⟨0⟩
    outer_bounds := ⟨0, 0, ⟨5, 5⟩⟩
    inner_bounds := ⟨1, 0, ⟨6, 5⟩⟩
    space := .fill
    anchor := ⟨.left, .top⟩
    preserve_ratio := .none'
    text_size := ⟨0, 0⟩
    hover := false
    offset := 0
    progress := 0
    progress_inc := false
    hover_offset := 1 }

/-- Fixed snapshot with the mouse inside `c1Btn`, `dt = 1/16`. -/
def c1StIn : AppState := ⟨⟨3, 2⟩, .unpressed, .unpressed, rdiv 1 16⟩

/-- Same `dt`, mouse far outside. -/
def c1StOut : AppState := ⟨⟨100, 100⟩, .unpressed, .unpressed, rdiv 1 16⟩

/-- `n` full frames (update + drain + handle) with the mouse held inside. -/
def c1Trace : ℕ → ButtonState
  | 0 => c1Btn
  | n + 1 => Button.frame c1StIn (c1Trace n)

/-- **C1 counterexample**: with fixed `dt = 1/16`, the mouse inside the
inner bounds for frames 0–6 (hover starts on frame 0), the back-out easing
target exceeds `hover_offset` and the low-pass `offset` follows it above 1;
on frame 7 the mouse has left, and the hover-end reset
`progress := offset / hover_offset` leaves `progress > 1` — the claimed
`[0,1]` clamp invariant fails immediately after the reset. -/
theorem C1_counterexample :
    (0 : ℚ) < c1StIn.dt ∧ c1StOut.dt = c1StIn.dt ∧
    (∀ k < 7,
      ((Button.update (c1Trace k) c1StIn).1.inner_bounds.contains c1StIn.mouse_position)
        = true) ∧
    ((Button.update (c1Trace 7) c1StOut).1.inner_bounds.contains c1StOut.mouse_position)
      = false ∧
    (c1Trace 7).hover = true ∧
    1 < (Button.frame c1StOut (c1Trace 7)).progress := by
  with_unfolding_all decide

/-- **C1 witness**: the inside-frame clause of the amended theorem applied
after the first frame (hover established). -/
theorem C1_amended_progress_animation_witness :
    ((0 : ℚ) < c1StIn.dt ∧ (c1Trace 1).hover = true ∧
      (c1Trace 1).progress_inc = true ∧ 0 ≤ (c1Trace 1).progress ∧
      (c1Trace 1).progress ≤ 1 ∧
      (Button.update (c1Trace 1) c1StIn).1.inner_bounds.contains c1StIn.mouse_position
        = true) ∧
    ((c1Trace 1).progress ≤ (Button.frame c1StIn (c1Trace 1)).progress ∧
      0 ≤ (Button.frame c1StIn (c1Trace 1)).progress ∧
      (Button.frame c1StIn (c1Trace 1)).progress ≤ 1 ∧
      (Button.frame c1StIn (c1Trace 1)).hover = true ∧
      (Button.frame c1StIn (c1Trace 1)).progress_inc = true) :=
  ⟨⟨by with_unfolding_all decide, by with_unfolding_all decide, by with_unfolding_all decide,
      by with_unfolding_all decide, by with_unfolding_all decide, by with_unfolding_all decide⟩,
    (C1_amended_progress_animation (c1Trace 1) c1StIn (by with_unfolding_all decide)).1
      (by with_unfolding_all decide) (by with_unfolding_all decide)
      (by with_unfolding_all decide) (by with_unfolding_all decide)
      (by with_unfolding_all decide)⟩

/-- Follows the spec's words for the zero-Fill policy ("treat as no Fill
distribution"): the same distribute loop, but every child is laid out at its
min size and no free-height division is ever formed. -/
def noFillVListLoop (bounds : Bounds) (spacing : ℚ) (y : ℚ) :
    List Widget → Option (List Widget)
  | [] => some []
  | child :: rest =>
    match child.min_size with
    | some m =>
      match child.set_bounds ⟨bounds.x, bounds.y + y, m⟩ with
      | some child' =>
        match noFillVListLoop bounds spacing (y + child'.bounds.size.h + spacing) rest with
        | some rest' => some (child' :: rest')
        | none => none
      | none => none
    | none => none

/-- **C5 counterexample**: with zero children
`VListContainer::set_bounds` does *not* complete — the total-padding
computation `spacing * (children.len() - 1)` underflows the `usize`
subtraction and panics (modelled `none`), refuting the claim that the call
completes with a well-defined result. -/
theorem C5_counterexample :
    Widget.set_bounds (.vlist ⟨0⟩ ⟨0, 0, ⟨0, 0⟩⟩ [] .fill 5) ⟨0, 0, ⟨100, 100⟩⟩ = none := by
  with_unfolding_all rfl

/-- **C5 amended**: with zero children the padding computation underflows
and the call panics (`none`) for every input; with zero `Fill` children
(every child `Minimize`) the distribute loop never forms the
`free_height / fill_count` quotient — it coincides with the spec's
"no Fill distribution" loop that lays every child out at its min size. -/
theorem C5_amended_edge_policies :
    (∀ (id : Id) (bnd : Bounds) (sp : Space) (spacing : ℚ) (b : Bounds),
      Widget.set_bounds (.vlist id bnd [] sp spacing) b = none) ∧
    (∀ (b : Bounds) (spacing : ℚ) (swp : Size) (free : ℚ) (fc : ℕ) (y : ℚ)
        (cs : List Widget),
      (∀ c ∈ cs, c.space = some .minimize) →
      vlistLoop b spacing swp free fc y cs = noFillVListLoop b spacing y cs) := by
  constructor
  · intro id bnd sp spacing b
    rw [Widget.set_bounds, vlistMeasure]
  · intro b spacing swp free fc y cs
    induction cs generalizing y with
    | nil => intro _; rfl
    | cons c rest ih =>
      intro hall
      have hc : c.space = some .minimize := hall c (List.mem_cons_self c rest)
      rw [vlistLoop, noFillVListLoop, hc]
      cases hm : c.min_size with
      | none => rfl
      | some m =>
        simp only [vlistChildSize]
        cases hsb : c.set_bounds ⟨b.x, b.y + y, m⟩ with
        | none => rfl
        | some c' =>
          simp only
          rw [ih _ (fun x hx => hall x (List.mem_cons_of_mem _ hx))]

/-- **C5 witness**: the no-Fill-distribution clause at a single
`Minimize` button. -/
theorem C5_amended_edge_policies_witness :
    (∀ c ∈ [Widget.button
        (ButtonState.mk ⟨3⟩ ⟨0, 0, ⟨0, 0⟩⟩ ⟨0, 0, ⟨0, 0⟩⟩ .minimize ⟨.left, .top⟩ .none'
          ⟨20, 30⟩ false 0 0 false 0)],
      Widget.space c = some .minimize) ∧
    vlistLoop ⟨0, 0, ⟨50, 100⟩⟩ 5 ⟨50, 100⟩ 70 0 0
        [Widget.button
          (ButtonState.mk ⟨3⟩ ⟨0, 0, ⟨0, 0⟩⟩ ⟨0, 0, ⟨0, 0⟩⟩ .minimize ⟨.left, .top⟩ .none'
            ⟨20, 30⟩ false 0 0 false 0)] =
      noFillVListLoop ⟨0, 0, ⟨50, 100⟩⟩ 5 0
        [Widget.button
          (ButtonState.mk ⟨3⟩ ⟨0, 0, ⟨0, 0⟩⟩ ⟨0, 0, ⟨0, 0⟩⟩ .minimize ⟨.left, .top⟩ .none'
            ⟨20, 30⟩ false 0 0 false 0)] :=
  ⟨by with_unfolding_all decide,
    C5_amended_edge_policies.2 ⟨0, 0, ⟨50, 100⟩⟩ 5 ⟨50, 100⟩ 70 0 0 _
      (by with_unfolding_all decide)⟩

/-! ### VListContainer layout refinement (C2)

The spec-side description of the vertical layout, written from the spec's
words, to be compared with the `set_bounds` implementation on lists of
plain buttons (Left/Top anchor, no aspect-ratio constraint — for which the
resulting `bounds()` height equals the assigned height). -/

/-- Spec measure: number of `Fill` children. -/
def fillCountSpec : List ButtonState → ℕ
  | [] => 0
  | c :: rest => (if c.space = .fill then 1 else 0) + fillCountSpec rest

/-- Spec measure: summed min heights of `Minimize` children. -/
def minimizeSumSpec : List ButtonState → ℚ
  | [] => 0
  | c :: rest => (if c.space = .minimize then c.text_size.h else 0) + minimizeSumSpec rest

/-- Follows the spec's words: each `Fill` child receives
`(width = container width, height = free_height / fill_count)`, each
`Minimize` child exactly its min size, children placed top-to-bottom with
`y` advancing by the child's resulting height plus spacing. -/
def specVListPlacement (x w free : ℚ) (fc : ℕ) (spacing : ℚ) (y : ℚ) :
    List ButtonState → List Bounds
  | [] => []
  | c :: rest =>
    let sz : Size := if c.space = .fill then ⟨w, rdiv free (fc : ℚ)⟩ else c.text_size
    ⟨x, y, sz⟩ :: specVListPlacement x w free fc spacing (y + sz.h + spacing) rest

/-- Follows the spec's words for a `Fill` container:
`free_height = container height − spacing × (count − 1) − Σ (Minimize min
heights)`, then the per-child placement. -/
def specVListFill (b : Bounds) (spacing : ℚ) (cs : List ButtonState) : List Bounds :=
  specVListPlacement b.x b.size.w
    (b.size.h - spacing * ((cs.length - 1 : ℕ) : ℚ) - minimizeSumSpec cs)
    (fillCountSpec cs) spacing b.y cs

/-- `Button::set_bounds` on a plain button (Left/Top anchor, no ratio
constraint): the assigned bounds become the outer bounds verbatim. -/
theorem Button.set_bounds_plain (c : ButtonState) (arg : Bounds)
    (ha : c.anchor = ⟨.left, .top⟩) (hr : c.preserve_ratio = .none') :
    Button.set_bounds c arg = some
      { c with
        outer_bounds := arg
        hover_offset := rdiv arg.size.w 5
        inner_bounds :=
          ⟨arg.x + rdiv arg.size.w 5, arg.y,
            ⟨arg.size.w - rdiv arg.size.w 5, arg.size.h⟩⟩ } := by
  have happ : c.anchor.apply_to arg = arg := by
    rw [ha]
    simp [Anchor.apply_to, Anchor.get_point]
  rw [Button.set_bounds, happ, hr]

/-- The measure pass over a list of buttons: `fill_count` and
`child_min_size` are the spec measures. -/
theorem vlistMeasure_buttons (cs : List ButtonState) :
    ∀ (acc : Size) (cms : ℚ) (fc : ℕ),
      ∃ msz, vlistMeasure (cs.map .button) acc cms fc =
        some (msz, cms + minimizeSumSpec cs, fc + fillCountSpec cs) := by
  induction cs with
  | nil =>
    intro acc cms fc
    exact ⟨acc, by simp [vlistMeasure, minimizeSumSpec, fillCountSpec]⟩
  | cons c rest ih =>
    intro acc cms fc
    rw [List.map_cons, vlistMeasure]
    simp only [Widget.min_size, Widget.space, Button.min_size]
    cases hsp : c.space with
    | fill =>
      obtain ⟨msz, h⟩ := ih ⟨rmax acc.w c.text_size.w, acc.h + c.text_size.h⟩ cms (fc + 1)
      refine ⟨msz, ?_⟩
      rw [h, minimizeSumSpec, fillCountSpec, hsp]
      simp [Nat.add_assoc]
    | minimize =>
      obtain ⟨msz, h⟩ :=
        ih ⟨rmax acc.w c.text_size.w, acc.h + c.text_size.h⟩ (cms + c.text_size.h) fc
      refine ⟨msz, ?_⟩
      rw [h, minimizeSumSpec, fillCountSpec, hsp]
      simp [add_assoc]

/-- The distribute loop over plain buttons: succeeds, stays a list of
buttons, and assigns exactly the spec placement (each button's resulting
`bounds()` height equals the assigned height, so the `y` cursor advances as
the spec says). -/
theorem vlistLoop_buttons (cs : List ButtonState)
    (hplain : ∀ c ∈ cs, c.anchor = ⟨.left, .top⟩ ∧ c.preserve_ratio = .none') :
    ∀ (b : Bounds) (spacing w swpH free : ℚ) (fc : ℕ) (y : ℚ),
      ∃ cs' : List ButtonState,
        vlistLoop b spacing ⟨w, swpH⟩ free fc y (cs.map .button) = some (cs'.map .button) ∧
        cs'.map (fun c => c.outer_bounds) =
          specVListPlacement b.x w free fc spacing (b.y + y) cs := by
  induction cs with
  | nil =>
    intro b spacing w swpH free fc y
    exact ⟨[], by simp [vlistLoop, specVListPlacement]⟩
  | cons c rest ih =>
    intro b spacing w swpH free fc y
    obtain ⟨ha, hr⟩ := hplain c (List.mem_cons_self c rest)
    have hrest := fun x hx => hplain x (List.mem_cons_of_mem c hx)
    rw [List.map_cons, vlistLoop]
    simp only [Widget.min_size, Widget.space, Button.min_size, vlistChildSize]
    cases hsp : c.space with
    | fill =>
      obtain ⟨rest', hloop, houter⟩ :=
        ih hrest b spacing w swpH free fc (y + rdiv free (fc : ℚ) + spacing)
      rw [Widget.set_bounds, Button.set_bounds_plain c _ ha hr]
      refine ⟨{ c with
          outer_bounds := ⟨b.x, b.y + y, ⟨w, rdiv free (fc : ℚ)⟩⟩
          hover_offset := rdiv w 5
          inner_bounds := ⟨b.x + rdiv w 5, b.y + y, ⟨w - rdiv w 5, rdiv free (fc : ℚ)⟩⟩ }
        :: rest', ?_, ?_⟩
      · simp only [Widget.bounds, hloop, List.map_cons]
      · rw [List.map_cons, specVListPlacement, hsp]
        have hy : b.y + (y + rdiv free (fc : ℚ) + spacing)
            = b.y + y + rdiv free (fc : ℚ) + spacing := by ring
        rw [hy] at houter
        simp [houter]
    | minimize =>
      obtain ⟨rest', hloop, houter⟩ :=
        ih hrest b spacing w swpH free fc (y + c.text_size.h + spacing)
      rw [Widget.set_bounds, Button.set_bounds_plain c _ ha hr]
      refine ⟨{ c with
          outer_bounds := ⟨b.x, b.y + y, c.text_size⟩
          hover_offset := rdiv c.text_size.w 5
          inner_bounds := ⟨b.x + rdiv c.text_size.w 5, b.y + y,
            ⟨c.text_size.w - rdiv c.text_size.w 5, c.text_size.h⟩⟩ }
        :: rest', ?_, ?_⟩
      · simp only [Widget.bounds, hloop, List.map_cons]
      · rw [List.map_cons, specVListPlacement, hsp]
        have hy : b.y + (y + c.text_size.h + spacing)
            = b.y + y + c.text_size.h + spacing := by ring
        rw [hy] at houter
        simp [houter]

/-- `VListContainer::set_bounds` on a `Fill` container of plain buttons
refines the spec formulas (`specVListFill`). -/
theorem vlistFillButtonsLayout (id : Id) (bnd : Bounds) (spacing : ℚ) (b : Bounds)
    (cs : List ButtonState) (hne : cs ≠ [])
    (hplain : ∀ c ∈ cs, c.anchor = ⟨.left, .top⟩ ∧ c.preserve_ratio = .none') :
    ∃ cs' : List ButtonState,
      Widget.set_bounds (.vlist id bnd (cs.map .button) .fill spacing) b =
        some (.vlist id ⟨b.x, b.y, b.size⟩ (cs'.map .button) .fill spacing) ∧
      cs'.map (fun c => c.outer_bounds) = specVListFill b spacing cs := by
  obtain ⟨msz, hms⟩ := vlistMeasure_buttons cs ⟨0, 0⟩ 0 0
  cases cs with
  | nil => exact absurd rfl hne
  | cons c0 rest0 =>
    rw [List.map_cons] at hms
    rw [Widget.set_bounds, List.map_cons, hms]
    simp only [List.length_cons, List.length_map, zero_add]
    obtain ⟨cs', hloop, houter⟩ :=
      vlistLoop_buttons (c0 :: rest0) hplain b spacing b.size.w
        (b.size.h - spacing * ((rest0.length + 1 - 1 : ℕ) : ℚ))
        (b.size.h - spacing * ((rest0.length + 1 - 1 : ℕ) : ℚ)
          - minimizeSumSpec (c0 :: rest0))
        (fillCountSpec (c0 :: rest0)) 0
    rw [List.map_cons] at hloop
    refine ⟨cs', ?_, ?_⟩
    · rw [hloop]
    · rw [houter, specVListFill]
      simp

/-- A plain button (Left/Top anchor, no ratio constraint) with the given
id, space policy and measured text size. -/
def plainBtn (i : ℕ) (sp : Space) (ts : Size) : ButtonState :=
  { id := ⟨i⟩
    outer_bounds := ⟨0, 0, ⟨0, 0⟩⟩
    inner_bounds := ⟨0, 0, ⟨0, 0⟩⟩
    space := sp
    anchor := ⟨.left, .top⟩
    preserve_ratio := .none'
    text_size := ts
    hover := false
    offset := 0
    progress := 0
    progress_inc := false
    hover_offset := 0 }

/-- The bounds assigned to a vlist's children (a button's assigned bounds
are its outer bounds). -/
def vlistChildrenOuter : Widget → List Bounds
  | .vlist _ _ cs _ _ =>
    cs.map (fun c =>
      match c with
      | .button s => s.outer_bounds
      | c => c.bounds)
  | _ => []

/-- Two equal `Fill` buttons, spacing 5. -/
def c2Ex1 : Widget :=
  .vlist ⟨100⟩ ⟨0, 0, ⟨0, 0⟩⟩
    [.button (plainBtn 1 .fill ⟨20, 10⟩), .button (plainBtn 2 .fill ⟨20, 10⟩)] .fill 5

/-- One `Minimize` button of min height 30 plus one `Fill` button,
spacing 0. -/
def c2Ex2 : Widget :=
  .vlist ⟨101⟩ ⟨0, 0, ⟨0, 0⟩⟩
    [.button (plainBtn 3 .minimize ⟨20, 30⟩), .button (plainBtn 4 .fill ⟨20, 10⟩)] .fill 0

/-- **C2**: a `Fill` `VListContainer` hands each `Fill` child
`(width = container width, height = free_height / fill_count)` with
`free_height = height − spacing × (count − 1) − Σ Minimize min heights`,
hands each `Minimize` child its min size, and advances `y` by each child's
resulting height plus spacing (`specVListFill` is exactly the spec's
formulas); in particular the two spec examples: parent height 205,
spacing 5, two `Fill` children → heights 100 and second `y` = first
`y` + 105; parent height 100, spacing 0, `Minimize` (30) + `Fill` → `Fill`
height 70. -/
theorem C2_vlist_fill_distribution :
    (∀ (id : Id) (bnd : Bounds) (spacing : ℚ) (b : Bounds) (cs : List ButtonState),
      cs ≠ [] →
      (∀ c ∈ cs, c.anchor = ⟨.left, .top⟩ ∧ c.preserve_ratio = .none') →
      ∃ cs' : List ButtonState,
        Widget.set_bounds (.vlist id bnd (cs.map .button) .fill spacing) b =
          some (.vlist id ⟨b.x, b.y, b.size⟩ (cs'.map .button) .fill spacing) ∧
        cs'.map (fun c => c.outer_bounds) = specVListFill b spacing cs) ∧
    ((Widget.set_bounds c2Ex1 ⟨0, 0, ⟨50, 205⟩⟩).map vlistChildrenOuter =
      some [⟨0, 0, ⟨50, 100⟩⟩, ⟨0, 105, ⟨50, 100⟩⟩]) ∧
    ((Widget.set_bounds c2Ex2 ⟨0, 0, ⟨50, 100⟩⟩).map vlistChildrenOuter =
      some [⟨0, 0, ⟨20, 30⟩⟩, ⟨0, 30, ⟨50, 70⟩⟩]) :=
  ⟨fun id bnd spacing b cs hne hplain => vlistFillButtonsLayout id bnd spacing b cs hne hplain,
    by with_unfolding_all decide, by with_unfolding_all decide⟩

/-- **C2 witness**: the general clause at the first example's data. -/
theorem C2_vlist_fill_distribution_witness :
    (([plainBtn 1 .fill ⟨20, 10⟩, plainBtn 2 .fill ⟨20, 10⟩] : List ButtonState) ≠ [] ∧
      (∀ c ∈ ([plainBtn 1 .fill ⟨20, 10⟩, plainBtn 2 .fill ⟨20, 10⟩] : List ButtonState),
        c.anchor = ⟨.left, .top⟩ ∧ c.preserve_ratio = .none')) ∧
    (∃ cs' : List ButtonState,
      Widget.set_bounds
          (.vlist ⟨100⟩ ⟨0, 0, ⟨0, 0⟩⟩
            (([plainBtn 1 .fill ⟨20, 10⟩, plainBtn 2 .fill ⟨20, 10⟩]).map .button)
            .fill 5) ⟨0, 0, ⟨50, 205⟩⟩ =
        some (.vlist ⟨100⟩ ⟨0, 0, ⟨50, 205⟩⟩ (cs'.map .button) .fill 5) ∧
      cs'.map (fun c => c.outer_bounds) =
        specVListFill ⟨0, 0, ⟨50, 205⟩⟩ 5 [plainBtn 1 .fill ⟨20, 10⟩, plainBtn 2 .fill ⟨20, 10⟩]) :=
  ⟨⟨by with_unfolding_all decide, by with_unfolding_all decide⟩,
    C2_vlist_fill_distribution.1 ⟨100⟩ ⟨0, 0, ⟨0, 0⟩⟩ 5 ⟨0, 0, ⟨50, 205⟩⟩
      [plainBtn 1 .fill ⟨20, 10⟩, plainBtn 2 .fill ⟨20, 10⟩]
      (by with_unfolding_all decide) (by with_unfolding_all decide)⟩

/-! ### Idempotence of `set_bounds` (C3) -/

/-- `Button::set_bounds` only writes `outer_bounds`, `hover_offset` and
`inner_bounds`; every other field survives. -/
theorem Button.set_bounds_fields (s : ButtonState) (b : Bounds) (s' : ButtonState)
    (h : Button.set_bounds s b = some s') :
    s'.id = s.id ∧ s'.space = s.space ∧ s'.anchor = s.anchor ∧
    s'.preserve_ratio = s.preserve_ratio ∧ s'.text_size = s.text_size ∧
    s'.hover = s.hover ∧ s'.offset = s.offset ∧ s'.progress = s.progress ∧
    s'.progress_inc = s.progress_inc := by
  rw [Button.set_bounds] at h
  rcases hpr : s.preserve_ratio with ratio | ratio | _ <;> rw [hpr] at h
  · simp only at h
    split_ifs at h <;> cases h <;>
      exact ⟨rfl, rfl, rfl, rfl, rfl, rfl, rfl, rfl, rfl⟩
  · cases h
  · simp only [Option.some.injEq] at h
    cases h
    exact ⟨rfl, rfl, rfl, rfl, rfl, rfl, rfl, rfl, rfl⟩

/-- `Button::set_bounds` is idempotent: re-running it with the same bounds
reproduces the same state. -/
theorem Button.set_bounds_idem (s : ButtonState) (b : Bounds) (s' : ButtonState)
    (h : Button.set_bounds s b = some s') : Button.set_bounds s' b = some s' := by
  obtain ⟨-, -, hanch, hpr', -, -, -, -, -⟩ := Button.set_bounds_fields s b s' h
  rw [Button.set_bounds] at h ⊢
  rw [hanch, hpr']
  rcases hpr : s.preserve_ratio with ratio | ratio | _ <;> rw [hpr] at h
  · simp only at h ⊢
    split_ifs at h ⊢ <;> cases h <;> rfl
  · cases h
  · simp only [Option.some.injEq] at h ⊢
    cases h
    rfl

/-- Pointwise preservation of the measured interface (`min_size`, `space`)
by a layout pass. -/
def MeasEq (c c' : Widget) : Prop :=
  c'.min_size = c.min_size ∧ c'.space = c.space

/-- `VListContainer::min_size`'s fold only consults the children's
`min_size`. -/
theorem minSizeFold_congr {cs cs' : List Widget}
    (h : List.Forall₂ MeasEq cs cs') :
    ∀ acc, minSizeFold acc cs' = minSizeFold acc cs := by
  induction h with
  | nil => intro acc; rfl
  | cons hcc _ ih =>
    intro acc
    rw [minSizeFold, minSizeFold, hcc.1]
    cases hm : Widget.min_size _ with
    | none => rfl
    | some m => exact ih _

/-- The measure pass only consults the children's `min_size` and `space`. -/
theorem vlistMeasure_congr {cs cs' : List Widget}
    (h : List.Forall₂ MeasEq cs cs') :
    ∀ acc cms fc, vlistMeasure cs' acc cms fc = vlistMeasure cs acc cms fc := by
  induction h with
  | nil => intro acc cms fc; rfl
  | cons hcc _ ih =>
    intro acc cms fc
    rw [vlistMeasure, vlistMeasure, hcc.1, hcc.2]
    cases hm : Widget.min_size _ with
    | none => rfl
    | some m =>
      cases hsp : Widget.space _ with
      | none => rfl
      | some sp =>
        cases sp with
        | fill => exact ih _ _ _
        | minimize => exact ih _ _ _

/-- Inversion of one step of the distribute loop. -/
theorem vlistLoop_cons_inv {b : Bounds} {spacing : ℚ} {swp : Size} {free : ℚ} {fc : ℕ}
    {y : ℚ} {c : Widget} {rest cs' : List Widget}
    (h : vlistLoop b spacing swp free fc y (c :: rest) = some cs') :
    ∃ m sp child' rest',
      c.min_size = some m ∧ c.space = some sp ∧
      c.set_bounds ⟨b.x, b.y + y, vlistChildSize swp free fc m sp⟩ = some child' ∧
      vlistLoop b spacing swp free fc (y + child'.bounds.size.h + spacing) rest
        = some rest' ∧
      cs' = child' :: rest' := by
  rw [vlistLoop] at h
  split at h <;>
    first
    | cases h
    | (simp only at h
       split at h
       · split at h
         · cases h
           exact ⟨_, _, _, _, by assumption, by assumption, by assumption,
             by assumption, rfl⟩
         · cases h
       · cases h)

/-- One step of the distribute loop, forward direction. -/
theorem vlistLoop_cons_mk {b : Bounds} {spacing : ℚ} {swp : Size} {free : ℚ} {fc : ℕ}
    {y : ℚ} {c : Widget} {rest rest' : List Widget} {m : Size} {sp : Space}
    {child' : Widget}
    (hm : c.min_size = some m) (hsp : c.space = some sp)
    (hsb : c.set_bounds ⟨b.x, b.y + y, vlistChildSize swp free fc m sp⟩ = some child')
    (hl : vlistLoop b spacing swp free fc (y + child'.bounds.size.h + spacing) rest
      = some rest') :
    vlistLoop b spacing swp free fc y (c :: rest) = some (child' :: rest') := by
  rw [vlistLoop, hm, hsp]
  simp only
  rw [hsb]
  simp only
  rw [hl]

/-- Inversion of `VListContainer::set_bounds`. -/
theorem vlist_set_bounds_inv {id : Id} {bnd : Bounds} {cs : List Widget} {sp : Space}
    {spacing : ℚ} {b : Bounds} {w' : Widget}
    (h : Widget.set_bounds (.vlist id bnd cs sp spacing) b = some w') :
    ∃ msz cms fc size children',
      vlistMeasure cs ⟨0, 0⟩ 0 0 = some (msz, cms, fc) ∧ cs ≠ [] ∧
      ((sp = .fill ∧ size = b.size) ∨
        (sp = .minimize ∧
          size = Size.mk msz.w (msz.h + spacing * ((cs.length - 1 : ℕ) : ℚ)))) ∧
      vlistLoop b spacing ⟨size.w, size.h - spacing * ((cs.length - 1 : ℕ) : ℚ)⟩
        (size.h - spacing * ((cs.length - 1 : ℕ) : ℚ) - cms) fc 0 cs = some children' ∧
      w' = .vlist id ⟨b.x, b.y, size⟩ children' sp spacing := by
  cases sp with
  | fill =>
    rw [Widget.set_bounds] at h
    split at h
    next heq1 =>
      split at h
      next => cases h
      next c0 rest0 =>
        simp only at h
        split at h
        next children0 heq3 =>
          cases h
          exact ⟨_, _, _, _, _, heq1, by simp, Or.inl ⟨rfl, rfl⟩, heq3, rfl⟩
        next heq3 => cases h
    next heq2 => cases h
  | minimize =>
    rw [Widget.set_bounds] at h
    split at h
    next heq1 =>
      split at h
      next => cases h
      next c0 rest0 =>
        simp only at h
        split at h
        next children0 heq3 =>
          cases h
          exact ⟨_, _, _, _, _, heq1, by simp, Or.inr ⟨rfl, rfl⟩, heq3, rfl⟩
        next heq3 => cases h
    next heq2 => cases h

/-- `VListContainer::set_bounds`, forward direction. -/
theorem vlist_set_bounds_mk {id : Id} {bnd : Bounds} {c0 : Widget} {rest0 : List Widget}
    {sp : Space} {spacing : ℚ} {b : Bounds} {msz size : Size} {cms : ℚ} {fc : ℕ}
    {children' : List Widget}
    (hm : vlistMeasure (c0 :: rest0) ⟨0, 0⟩ 0 0 = some (msz, cms, fc))
    (hsize : (sp = .fill ∧ size = b.size) ∨
      (sp = .minimize ∧
        size = Size.mk msz.w (msz.h + spacing * (((c0 :: rest0).length - 1 : ℕ) : ℚ))))
    (hl : vlistLoop b spacing
      ⟨size.w, size.h - spacing * (((c0 :: rest0).length - 1 : ℕ) : ℚ)⟩
      (size.h - spacing * (((c0 :: rest0).length - 1 : ℕ) : ℚ) - cms) fc 0 (c0 :: rest0)
      = some children') :
    Widget.set_bounds (.vlist id bnd (c0 :: rest0) sp spacing) b =
      some (.vlist id ⟨b.x, b.y, size⟩ children' sp spacing) := by
  rcases hsize with ⟨hspv, hsz⟩ | ⟨hspv, hsz⟩
  · subst hspv
    subst hsz
    rw [Widget.set_bounds, hm]
    simp only [hl]
  · subst hspv
    subst hsz
    rw [Widget.set_bounds, hm]
    simp only [hl]

/-- Inversion of one step of the anchor-entry loop. -/
theorem anchorLoop_cons_inv {b : Bounds} {sc : Scale} {an : Anchor} {c : Widget}
    {rest es' : List (Scale × Anchor × Widget)}
    (h : anchorLoop b ((sc, an, c) :: rest) = some es') :
    ∃ child' rest',
      c.set_bounds ⟨(an.get_point b.size).x, (an.get_point b.size).y,
        ⟨b.size.w * sc.x, b.size.h * sc.y⟩⟩ = some child' ∧
      anchorLoop b rest = some rest' ∧
      es' = (sc, an, child') :: rest' := by
  rw [anchorLoop] at h
  split at h
  · split at h
    · cases h
      exact ⟨_, _, by assumption, by assumption, rfl⟩
    · cases h
  · cases h

/-- One step of the anchor-entry loop, forward direction. -/
theorem anchorLoop_cons_mk {b : Bounds} {sc : Scale} {an : Anchor} {c child' : Widget}
    {rest rest' : List (Scale × Anchor × Widget)}
    (hsb : c.set_bounds ⟨(an.get_point b.size).x, (an.get_point b.size).y,
      ⟨b.size.w * sc.x, b.size.h * sc.y⟩⟩ = some child')
    (hl : anchorLoop b rest = some rest') :
    anchorLoop b ((sc, an, c) :: rest) = some ((sc, an, child') :: rest') := by
  rw [anchorLoop]
  simp only [hsb, hl]

mutual

/-- `set_bounds` never changes a widget's measured interface. -/
theorem set_bounds_pres : ∀ (w : Widget) (b : Bounds) (w' : Widget),
    Widget.set_bounds w b = some w' → MeasEq w w'
  | .button s, b, w', h => by
    rw [Widget.set_bounds] at h
    cases hb : Button.set_bounds s b with
    | none => rw [hb] at h; cases h
    | some s' =>
      rw [hb] at h
      cases h
      obtain ⟨-, hsp, -, -, hts, -, -, -, -⟩ := Button.set_bounds_fields s b s' hb
      exact ⟨by rw [Widget.min_size, Widget.min_size, Button.min_size, Button.min_size, hts],
        by rw [Widget.space, Widget.space, hsp]⟩
  | .vlist id bnd cs sp spacing, b, w', h => by
    obtain ⟨msz, cms, fc, size, children', hm, hne, hsize, hl, hw'⟩ := vlist_set_bounds_inv h
    subst hw'
    have hfa := vlistLoop_pres _ _ _ _ _ _ _ _ hl
    exact ⟨by rw [Widget.min_size, Widget.min_size]; exact minSizeFold_congr hfa _, rfl⟩
  | .anchor id bnd entries, b, w', h => by
    rw [Widget.set_bounds] at h
    split at h
    · cases h
      exact ⟨rfl, rfl⟩
    · cases h
  | .expandable id main list bnd expanded inc, b, w', h => by
    rw [Widget.set_bounds] at h
    cases hb : Button.set_bounds main b with
    | none => rw [hb] at h; cases h
    | some main' =>
      rw [hb] at h
      cases h
      obtain ⟨-, -, -, -, hts, -, -, -, -⟩ := Button.set_bounds_fields main b main' hb
      exact ⟨by rw [Widget.min_size, Widget.min_size, Button.min_size, Button.min_size, hts],
        rfl⟩

/-- The distribute loop preserves each child's measured interface
pointwise. -/
theorem vlistLoop_pres : ∀ (cs : List Widget) (b : Bounds) (spacing : ℚ) (swp : Size)
    (free : ℚ) (fc : ℕ) (y : ℚ) (cs' : List Widget),
    vlistLoop b spacing swp free fc y cs = some cs' →
    List.Forall₂ MeasEq cs cs'
  | [], _, _, _, _, _, _, cs', h => by
    rw [vlistLoop] at h
    cases h
    exact List.Forall₂.nil
  | c :: rest, b, spacing, swp, free, fc, y, cs', h => by
    obtain ⟨m, sp, child', rest', hm, hsp, hsb, hloop, hcs'⟩ := vlistLoop_cons_inv h
    subst hcs'
    exact List.Forall₂.cons (set_bounds_pres _ _ _ hsb)
      (vlistLoop_pres _ _ _ _ _ _ _ _ hloop)

end

mutual

/-- `Element::set_bounds` is idempotent over the whole tree: a second call
with the same bounds reproduces the same state. -/
theorem widget_set_bounds_idem : ∀ (w : Widget) (b : Bounds) (w' : Widget),
    Widget.set_bounds w b = some w' → Widget.set_bounds w' b = some w'
  | .button s, b, w', h => by
    rw [Widget.set_bounds] at h
    cases hb : Button.set_bounds s b with
    | none => rw [hb] at h; cases h
    | some s' =>
      rw [hb] at h
      cases h
      rw [Widget.set_bounds, Button.set_bounds_idem s b s' hb]
  | .vlist id bnd cs sp spacing, b, w', h => by
    obtain ⟨msz, cms, fc, size, children', hm, hne, hsize, hl, hw'⟩ := vlist_set_bounds_inv h
    subst hw'
    have hfa := vlistLoop_pres _ _ _ _ _ _ _ _ hl
    have hm' : vlistMeasure children' ⟨0, 0⟩ 0 0 = some (msz, cms, fc) := by
      rw [vlistMeasure_congr hfa]
      exact hm
    have hlen : children'.length = cs.length := (List.Forall₂.length_eq hfa).symm
    have hl' := vlistLoop_idem _ _ _ _ _ _ _ _ hl
    cases children' with
    | nil =>
      cases cs with
      | nil => exact absurd rfl hne
      | cons c0 rest0 => cases hfa
    | cons c0' rest0' =>
      refine vlist_set_bounds_mk hm' ?_ ?_
      · rcases hsize with ⟨hsp, hsz⟩ | ⟨hsp, hsz⟩
        · exact Or.inl ⟨hsp, hsz⟩
        · refine Or.inr ⟨hsp, ?_⟩
          rw [show (c0' :: rest0').length = cs.length from hlen]
          exact hsz
      · rw [show (c0' :: rest0').length = cs.length from hlen]
        exact hl'
  | .anchor id bnd entries, b, w', h => by
    rw [Widget.set_bounds] at h
    split at h
    next entries' heq =>
      cases h
      rw [Widget.set_bounds]
      simp only [anchorLoop_idem _ _ _ heq]
    next => cases h
  | .expandable id main list bnd expanded inc, b, w', h => by
    rw [Widget.set_bounds] at h
    cases hb : Button.set_bounds main b with
    | none => rw [hb] at h; cases h
    | some main' =>
      rw [hb] at h
      cases h
      rw [Widget.set_bounds, Button.set_bounds_idem main b main' hb]

/-- The distribute loop is idempotent. -/
theorem vlistLoop_idem : ∀ (cs : List Widget) (b : Bounds) (spacing : ℚ) (swp : Size)
    (free : ℚ) (fc : ℕ) (y : ℚ) (cs' : List Widget),
    vlistLoop b spacing swp free fc y cs = some cs' →
    vlistLoop b spacing swp free fc y cs' = some cs'
  | [], _, _, _, _, _, _, cs', h => by
    rw [vlistLoop] at h
    cases h
    rw [vlistLoop]
  | c :: rest, b, spacing, swp, free, fc, y, cs', h => by
    obtain ⟨m, sp, child', rest', hm, hsp, hsb, hloop, hcs'⟩ := vlistLoop_cons_inv h
    subst hcs'
    have hpres := set_bounds_pres _ _ _ hsb
    refine vlistLoop_cons_mk ?_ ?_ (widget_set_bounds_idem _ _ _ hsb)
      (vlistLoop_idem _ _ _ _ _ _ _ _ hloop)
    · rw [hpres.1]
      exact hm
    · rw [hpres.2]
      exact hsp

/-- The anchor-entry loop is idempotent. -/
theorem anchorLoop_idem : ∀ (es : List (Scale × Anchor × Widget)) (b : Bounds)
    (es' : List (Scale × Anchor × Widget)),
    anchorLoop b es = some es' → anchorLoop b es' = some es'
  | [], b, es', h => by
    rw [anchorLoop] at h
    cases h
    rw [anchorLoop]
  | (sc, an, c) :: rest, b, es', h => by
    obtain ⟨child', rest', hsb, hloop, hes'⟩ := anchorLoop_cons_inv h
    subst hes'
    exact anchorLoop_cons_mk (widget_set_bounds_idem _ _ _ hsb) (anchorLoop_idem _ _ _ hloop)

end

/-- **C3**: for every widget of the tree (Button, VListContainer,
AnchorContainer, ExpandableButton), `set_bounds` is a pure, idempotent
function of the incoming bounds and the children's current measured sizes:
whenever a call succeeds, calling it again with the same bounds leaves the
widget — its own bounds and every descendant's state — identical. -/
theorem C3_set_bounds_idempotent (w : Widget) (b : Bounds) (w' : Widget)
    (h : Widget.set_bounds w b = some w') : Widget.set_bounds w' b = some w' :=
  widget_set_bounds_idem w b w' h

/-- The vlist of `C3_set_bounds_idempotent_witness` before layout. -/
def c3W : Widget :=
  .vlist ⟨100⟩ ⟨0, 0, ⟨0, 0⟩⟩ [.button (plainBtn 1 .fill ⟨20, 10⟩)] .fill 5

/-- The vlist of `C3_set_bounds_idempotent_witness` after layout at
`(0, 0, 50×100)`. -/
def c3W' : Widget :=
  .vlist ⟨100⟩ ⟨0, 0, ⟨50, 100⟩⟩
    [.button
      { plainBtn 1 .fill ⟨20, 10⟩ with
        outer_bounds := ⟨0, 0, ⟨50, 100⟩⟩
        inner_bounds := ⟨10, 0, ⟨40, 100⟩⟩
        hover_offset := 10 }] .fill 5

/-- **C3 witness**: a container laid out once is a fixed point of a second
`set_bounds` call with the same bounds. -/
theorem C3_set_bounds_idempotent_witness :
    Widget.set_bounds c3W ⟨0, 0, ⟨50, 100⟩⟩ = some c3W' ∧
    Widget.set_bounds c3W' ⟨0, 0, ⟨50, 100⟩⟩ = some c3W' :=
  ⟨by with_unfolding_all rfl,
    C3_set_bounds_idempotent c3W ⟨0, 0, ⟨50, 100⟩⟩ c3W' (by with_unfolding_all rfl)⟩

/-! ### ExpandableButton toggling (C4) -/

mutual

/-- A message whose target no node of the tree listens to passes through
`handle` without changing any state or emitting anything. -/
theorem handle_fresh : ∀ (w : Widget) (t : Id) (d : MessageData),
    listensTo t w = false → Widget.handle w ⟨t, d⟩ = some (w, [])
  | .button s, t, d, hf => by
    rw [listensTo] at hf
    rw [Widget.handle, Button.handle]
    rw [if_neg (of_decide_eq_false hf)]
  | .vlist id bnd cs sp spacing, t, d, hf => by
    rw [listensTo] at hf
    rw [Widget.handle, handleList_fresh cs t d hf]
  | .anchor id bnd entries, t, d, hf => by
    rw [listensTo] at hf
    rw [Widget.handle, handleEntries_fresh entries t d hf]
  | .expandable id main list bnd e inc, t, d, hf => by
    rw [listensTo] at hf
    simp only [Bool.or_eq_false_iff, decide_eq_false_iff_not] at hf
    obtain ⟨⟨ht1, ht2⟩, ht3⟩ := hf
    have hlist : (if e ≠ 0 then Widget.handle list ⟨t, d⟩ else some (list, [])) =
        some (list, []) := by
      split_ifs with he
      · exact handle_fresh list t d ht3
      · rfl
    have hmain : Button.handle main ⟨t, d⟩ = main := by
      rw [Button.handle]
      rw [if_neg ht2]
    rw [Widget.handle]
    simp only [hlist, hmain, if_neg ht1, if_neg ht2, List.nil_append]

/-- `handle_fresh` over a vlist's children. -/
theorem handleList_fresh : ∀ (cs : List Widget) (t : Id) (d : MessageData),
    listensToList t cs = false → handleList cs ⟨t, d⟩ = some (cs, [])
  | [], t, d, hf => by
    rw [handleList]
  | c :: rest, t, d, hf => by
    rw [listensToList] at hf
    simp only [Bool.or_eq_false_iff] at hf
    rw [handleList, handle_fresh c t d hf.1, handleList_fresh rest t d hf.2]
    rfl

/-- `handle_fresh` over anchor entries. -/
theorem handleEntries_fresh : ∀ (es : List (Scale × Anchor × Widget)) (t : Id)
    (d : MessageData),
    listensToEntries t es = false → handleEntries es ⟨t, d⟩ = some (es, [])
  | [], t, d, hf => by
    rw [handleEntries]
  | (sc, an, c) :: rest, t, d, hf => by
    rw [listensToEntries] at hf
    simp only [Bool.or_eq_false_iff] at hf
    rw [handleEntries, handle_fresh c t d hf.1, handleEntries_fresh rest t d hf.2]
    rfl

end

/-- Observing the main button's `Click`: the ExpandableButton emits the
toggle opposite to its current direction and changes nothing (with fresh
ids in the sub-tree, per the global Id-uniqueness invariant). -/
theorem expandable_click_step (id : Id) (main : ButtonState) (list : Widget)
    (bnds : Bounds) (e : ℚ) (inc : Bool)
    (hmainFresh : listensTo main.id list = false) (hne : id ≠ main.id) :
    Widget.handle (.expandable id main list bnds e inc) ⟨main.id, .button .click⟩ =
      some (.expandable id main list bnds e inc,
        [⟨id, .expandableButton (if inc then .fold else .expand)⟩]) := by
  have hlist : (if e ≠ 0 then Widget.handle list ⟨main.id, .button .click⟩
      else some (list, [])) = some (list, []) := by
    split_ifs with he
    · exact handle_fresh list main.id _ hmainFresh
    · rfl
  rw [Widget.handle]
  simp only [hlist, Button.handle_click_any, if_pos rfl, if_neg (Ne.symm hne),
    List.append_nil]
  simp

/-- Delivering a self-addressed toggle: `Expand` sets the direction flag,
`Fold` clears it; nothing else changes and nothing is emitted. -/
theorem expandable_toggle_step (id : Id) (main : ButtonState) (list : Widget)
    (bnds : Bounds) (e : ℚ) (inc : Bool) (em : ExpandableButtonMessage)
    (hidFresh : listensTo id list = false) (hne : id ≠ main.id) :
    Widget.handle (.expandable id main list bnds e inc) ⟨id, .expandableButton em⟩ =
      some (.expandable id main list bnds e
        (match em with | .expand => true | .fold => false), []) := by
  have hlist : (if e ≠ 0 then Widget.handle list ⟨id, .expandableButton em⟩
      else some (list, [])) = some (list, []) := by
    split_ifs with he
    · exact handle_fresh list id _ hidFresh
    · rfl
  have hmain : Button.handle main ⟨id, .expandableButton em⟩ = main := by
    rw [Button.handle]
    rw [if_neg hne]
  rw [Widget.handle]
  simp only [hlist, hmain, if_pos rfl, if_neg hne, List.nil_append]
  simp

/-- **C4**: a `Click` observed from the main button makes the
ExpandableButton emit the toggle opposite to `expand_inc` (`Expand` when
currently folding, `Fold` when expanding) without changing state; the
delivered toggle flips `expand_inc`; and running the click/toggle cycle
twice restores `expand_inc` exactly — the toggle is involutive.  The
freshness hypotheses are the spec's global Id-uniqueness. -/
theorem C4_expandable_toggle_involutive (id : Id) (main : ButtonState) (list : Widget)
    (bnds : Bounds) (e : ℚ) (inc : Bool)
    (hmainFresh : listensTo main.id list = false)
    (hidFresh : listensTo id list = false)
    (hne : id ≠ main.id) :
    (Widget.handle (.expandable id main list bnds e inc) ⟨main.id, .button .click⟩ =
      some (.expandable id main list bnds e inc,
        [⟨id, .expandableButton (if inc then .fold else .expand)⟩])) ∧
    (Widget.handle (.expandable id main list bnds e inc)
        ⟨id, .expandableButton (if inc then .fold else .expand)⟩ =
      some (.expandable id main list bnds e (!inc), [])) ∧
    (Widget.handle (.expandable id main list bnds e (!inc)) ⟨main.id, .button .click⟩ =
      some (.expandable id main list bnds e (!inc),
        [⟨id, .expandableButton (if !inc then .fold else .expand)⟩])) ∧
    (Widget.handle (.expandable id main list bnds e (!inc))
        ⟨id, .expandableButton (if !inc then .fold else .expand)⟩ =
      some (.expandable id main list bnds e inc, [])) := by
  refine ⟨expandable_click_step id main list bnds e inc hmainFresh hne, ?_,
    expandable_click_step id main list bnds e (!inc) hmainFresh hne, ?_⟩
  · have h := expandable_toggle_step id main list bnds e inc
      (if inc then .fold else .expand) hidFresh hne
    cases inc
    · simpa using h
    · simpa using h
  · have h := expandable_toggle_step id main list bnds e (!inc)
      (if !inc then .fold else .expand) hidFresh hne
    cases inc
    · simpa using h
    · simpa using h

/-- Main button of the witness ExpandableButton (id 1). -/
def c4Main : ButtonState := plainBtn 1 .fill ⟨20, 10⟩

/-- List sub-tree of the witness ExpandableButton (ids 3, 2). -/
def c4List : Widget := .vlist ⟨3⟩ ⟨0, 0, ⟨0, 0⟩⟩ [.button (plainBtn 2 .fill ⟨20, 10⟩)] .fill 5

/-- The witness ExpandableButton (id 0), mid-animation (`expanded = 1/2`),
currently folding. -/
def c4Eb : Widget := .expandable ⟨0⟩ c4Main c4List ⟨0, 0, ⟨0, 0⟩⟩ (rdiv 1 2) false

/-- The witness ExpandableButton after one toggle. -/
def c4Eb1 : Widget := .expandable ⟨0⟩ c4Main c4List ⟨0, 0, ⟨0, 0⟩⟩ (rdiv 1 2) true

/-- **C4 witness**: the full two-click cycle on a concrete
ExpandableButton. -/
theorem C4_expandable_toggle_involutive_witness :
    (listensTo c4Main.id c4List = false ∧ listensTo (Id.mk 0) c4List = false ∧
      Id.mk 0 ≠ c4Main.id) ∧
    (Widget.handle c4Eb ⟨c4Main.id, .button .click⟩ =
        some (c4Eb, [⟨⟨0⟩, .expandableButton .expand⟩]) ∧
      Widget.handle c4Eb ⟨⟨0⟩, .expandableButton .expand⟩ = some (c4Eb1, []) ∧
      Widget.handle c4Eb1 ⟨c4Main.id, .button .click⟩ =
        some (c4Eb1, [⟨⟨0⟩, .expandableButton .fold⟩]) ∧
      Widget.handle c4Eb1 ⟨⟨0⟩, .expandableButton .fold⟩ = some (c4Eb, [])) :=
  ⟨⟨by with_unfolding_all decide, by with_unfolding_all decide, by decide⟩,
    C4_expandable_toggle_involutive ⟨0⟩ c4Main c4List ⟨0, 0, ⟨0, 0⟩⟩ (rdiv 1 2) false
      (by with_unfolding_all decide) (by with_unfolding_all decide) (by decide)⟩

end Nui
